import Mathlib

/-!
Shallow embedding of the log-ingestion, broadcast and archival core of
server.js (HTTPServerUE5BlueprintLogging), together with theorems that
settle the specification claims about it.

Modelling conventions:
* A JSON value carried in the request body's log field is a JVal.
* JavaScript truthiness of the log field is the function truthy
  (absent field is Option.none, handled by truthyOpt).
* File-system writes can fail (writeFileSync throwing, caught by the
  code); each write site takes a Boolean success oracle, so that
  try/catch fallbacks of the source become conditional state updates.
* The WebSocket broadcasts of a request are collected in arrival order
  as a list of envelopes (the source iterates wss.clients and sends the
  same serialized envelope to each open client; per-client delivery
  failures are logged and ignored, so the envelope list is the payload
  every live subscriber receives).
* Machine timestamps (new Date().toISOString()) are an opaque String
  parameter ts of the operations that use them.
-/

namespace LogSrv

/-- JSON-like value for the log field of a request body, mirroring what
body-parser can produce for req.body.log. Numbers are modelled as Int
(JSON has no NaN; the truthiness of numeric zero is what matters here). -/
inductive JVal : Type where
  | jnull : JVal
  | jbool : Bool → JVal
  | jnum : Int → JVal
  | jstr : String → JVal
  | jarr : List JVal → JVal
  | jobj : List (String × JVal) → JVal

/-- JavaScript truthiness of a present value: null, false, 0 and the
empty string are falsy; every other value (including empty arrays and
objects) is truthy. -/
def truthy : JVal → Bool
  | JVal.jnull => false
  | JVal.jbool b => b
  | JVal.jnum n => decide (n ≠ 0)
  | JVal.jstr s => decide (s ≠ (""))
  | JVal.jarr _ => true
  | JVal.jobj _ => true

/-- Truthiness of the possibly-absent log field: an absent field
(undefined) is falsy. -/
def truthyOpt : Option JVal → Bool
  | none => false
  | some v => truthy v

/-- The typeof check of the source: typeof log === a string. -/
def isStringVal : JVal → Bool
  | JVal.jstr _ => true
  | _ => false

/-- Boolean test that p is a prefix of the second list. -/
def pfx {α : Type} [DecidableEq α] : List α → List α → Bool
  | [], _ => true
  | _ :: _, [] => false
  | a :: as, b :: bs => if a = b then pfx as bs else false

/-- Boolean substring test: pat occurs contiguously in s. -/
def containsSub (pat : List Char) : List Char → Bool
  | [] => pat.isEmpty
  | c :: rest => pfx pat (c :: rest) || containsSub pat rest

/-- The sentinel match of the source: the regex test for the substring
shutdown with the case-insensitive flag, i.e. the lower-cased text
contains the lower-case substring shutdown. -/
def containsShutdown (s : String) : Bool :=
  containsSub ("shutdown").data (s.data.map Char.toLower)

/-- The guard of the auto-archive branch: typeof log === string and the
regex test succeeds on it. Non-string payloads never fire the sentinel. -/
def shutdownSentinel : JVal → Bool
  | JVal.jstr s => containsShutdown s
  | _ => false

/-- Character sanitization of the archive timestamp: the source replaces
every colon and period with a dash before embedding the ISO timestamp in
the archive filename. -/
def sanChar (c : Char) : Char :=
  if c = ':' ∨ c = '.' then '-' else c

/-- Timestamp sanitization, String.replace of colon and period by dash. -/
def sanitizeTs (s : String) : String :=
  String.mk (s.data.map sanChar)

/-- Archive filename built by archiveLogs from the current timestamp. -/
def archiveFilename (ts : String) : String :=
  ("logs-") ++ sanitizeTs ts ++ (".json")

/-- The archive store: association of archive filenames to the snapshot
content written for them, in creation order. -/
abbrev Archives := List (String × List JVal)

/-- Embedding of archiveLogs: returns null on an empty buffer without
writing; otherwise writes a snapshot named from the timestamp and
returns the filename, or null when the write throws (caught). -/
def archiveLogs (logs : List JVal) (archives : Archives) (writeOk : Bool)
    (ts : String) : Option String × Archives :=
  if logs.isEmpty then (none, archives)
  else if writeOk then
    (some (archiveFilename ts), archives ++ [(archiveFilename ts, logs)])
  else (none, archives)

/-- Embedding of saveLogs: overwrite the persisted document with the
current buffer; a throwing write is caught and leaves the old document. -/
def saveLogs (newLogs oldDisk : List JVal) (writeOk : Bool) : List JVal :=
  if writeOk then newLogs else oldDisk

/-- Server state: the in-memory live buffer (logs), the persisted
document (logs.json content) and the archive store. -/
structure ServerState : Type where
  logs : List JVal
  disk : List JVal
  archives : Archives

/-- The state of a freshly started server with no persisted file:
loadLogs initializes both the buffer and the document to empty. -/
def initialState : ServerState := ⟨[], [], []⟩

/-- An envelope pushed over the WebSocket channel: the serialized object
with a type tag and a data payload. -/
structure Envelope : Type where
  type : String
  data : JVal

/-- Data payload of the archive notification envelope: the object with
an archived field (filename or null) and a cleared flag. -/
def archiveEnvelopeData (archived : Option String) (cleared : Bool) : JVal :=
  JVal.jobj [(("archived"), match archived with
    | some f => JVal.jstr f
    | none => JVal.jnull), (("cleared"), JVal.jbool cleared)]

/-- The envelope a newly connected subscriber receives: the init message
carrying the full current buffer. -/
def initEnvelope (st : ServerState) : Envelope :=
  ⟨("init"), JVal.jarr st.logs⟩

/-- HTTP result of the POST /log route. -/
inductive HttpResponse : Type where
  | ok : String → HttpResponse
  | okArchived : String → Option String → HttpResponse
  | badRequest : String → HttpResponse
deriving DecidableEq

/-- HTTP status code of each POST /log result. -/
def httpStatus : HttpResponse → Nat
  | HttpResponse.ok _ => 200
  | HttpResponse.okArchived _ _ => 200
  | HttpResponse.badRequest _ => 400

/-- Everything one POST /log request produces: the successor state, the
HTTP response, and the envelopes broadcast to subscribers in order. -/
structure SubmitResult : Type where
  state : ServerState
  response : HttpResponse
  emitted : List Envelope

/-- Embedding of the POST /log handler. Arguments beyond the state and
the log field are environment oracles: persistOk1 is the success of the
saveLogs call right after the append, persistOk2 the success of the
saveLogs call that persists the cleared buffer after archival, and
archiveWriteOk the success of the snapshot write inside archiveLogs;
ts is the current timestamp. The handler is a total function: every
internal I/O failure is caught by the source, so no exception reaches
the caller. -/
def submit (st : ServerState) (logField : Option JVal)
    (persistOk1 persistOk2 archiveWriteOk : Bool) (ts : String) :
    SubmitResult :=
  match logField with
  | none => ⟨st, HttpResponse.badRequest ("No log provided"), []⟩
  | some log =>
    if truthy log then
      let logs1 := st.logs ++ [log]
      let disk1 := saveLogs logs1 st.disk persistOk1
      let newEnv : Envelope := ⟨("new"), JVal.jarr [log]⟩
      if shutdownSentinel log then
        let ar := archiveLogs logs1 st.archives archiveWriteOk ts
        let disk2 := saveLogs [] disk1 persistOk2
        ⟨⟨[], disk2, ar.2⟩,
         HttpResponse.okArchived
           ("Log received and archived (shutdown detected)") ar.1,
         [newEnv, ⟨("archive"), archiveEnvelopeData ar.1 true⟩]⟩
      else
        ⟨⟨logs1, disk1, st.archives⟩, HttpResponse.ok ("Log received"),
         [newEnv]⟩
    else ⟨st, HttpResponse.badRequest ("No log provided"), []⟩

/-- A sequence of POST /log requests processed in order, with every
file-system write succeeding and a fixed timestamp source. -/
def submitSeq (st : ServerState) (payloads : List JVal) (ts : String) :
    ServerState :=
  payloads.foldl (fun s v => (submit s (some v) true true true ts).state) st

/-- C2: a submission whose log field is falsy under JavaScript
truthiness (absent, empty string, null, false, or numeric zero) is
rejected with the 400 No-log-provided error; the live buffer, the
persisted document and the archives are unchanged and nothing is
broadcast. -/
theorem submit_falsy_rejected (st : ServerState) (lf : Option JVal)
    (p1 p2 aOk : Bool) (ts : String) (h : truthyOpt lf = false) :
    submit st lf p1 p2 aOk ts =
      ⟨st, HttpResponse.badRequest ("No log provided"), []⟩ := by
  cases lf with
  | none => rfl
  | some v =>
    simp only [truthyOpt] at h
    simp [submit, h]

/-- Witness for C2: each falsy shape named by the spec is indeed falsy,
and the theorem applies at a concrete non-empty state and null payload. -/
theorem submit_falsy_rejected_witness :
    truthyOpt none = false ∧
    truthyOpt (some (JVal.jstr (""))) = false ∧
    truthyOpt (some JVal.jnull) = false ∧
    truthyOpt (some (JVal.jbool false)) = false ∧
    truthyOpt (some (JVal.jnum 0)) = false ∧
    submit ⟨[JVal.jstr ("a")], [JVal.jstr ("a")], []⟩ (some JVal.jnull)
        true true true ("t") =
      ⟨⟨[JVal.jstr ("a")], [JVal.jstr ("a")], []⟩,
       HttpResponse.badRequest ("No log provided"), []⟩ := by
  refine ⟨by decide, by decide, by decide, by decide, by decide, ?_⟩
  exact submit_falsy_rejected _ _ _ _ _ _ (by decide)

/-- C4: when the live buffer is empty at the moment the snapshot step
runs, archiveLogs writes nothing and returns the null identifier. -/
theorem archiveLogs_empty_noop (archives : Archives) (wOk : Bool)
    (ts : String) :
    archiveLogs [] archives wOk ts = (none, archives) := rfl

/-- Helper: one valid, non-sentinel submission with a successful save
appends the record to both the buffer and the document. -/
theorem submit_valid_step (st : ServerState) (v : JVal) (p2 aOk : Bool)
    (ts : String) (hv : truthy v = true) (hns : shutdownSentinel v = false) :
    submit st (some v) true p2 aOk ts =
      ⟨⟨st.logs ++ [v], st.logs ++ [v], st.archives⟩,
       HttpResponse.ok ("Log received"), [⟨("new"), JVal.jarr [v]⟩]⟩ := by
  simp [submit, hv, hns, saveLogs]

/-- Helper: submitSeq over valid non-sentinel payloads appends them all,
keeping the document synchronized with the buffer. -/
theorem submitSeq_appends (payloads : List JVal) (st : ServerState)
    (ts : String)
    (h : ∀ v ∈ payloads, truthy v = true ∧ shutdownSentinel v = false)
    (hdisk : st.disk = st.logs) :
    (submitSeq st payloads ts).logs = st.logs ++ payloads ∧
      (submitSeq st payloads ts).disk = st.logs ++ payloads := by
  induction payloads generalizing st with
  | nil => simpa [submitSeq] using hdisk
  | cons v rest ih =>
    have hv := (h v (List.mem_cons_self v rest)).1
    have hns := (h v (List.mem_cons_self v rest)).2
    have hrest : ∀ w ∈ rest, truthy w = true ∧ shutdownSentinel w = false :=
      fun w hw => h w (List.mem_cons_of_mem v hw)
    have hstep := submit_valid_step st v true true ts hv hns
    have := ih ⟨st.logs ++ [v], st.logs ++ [v], st.archives⟩ hrest rfl
    simp only [submitSeq, List.foldl_cons] at this ⊢
    rw [hstep]
    simpa [List.append_assoc] using this

/-- C1 (amended): for a sequence of valid submissions none of which
fires the shutdown sentinel, processed in order from a fresh server with
all persistence writes succeeding, the live buffer afterwards is exactly
the submitted payloads in arrival order and the persisted document
equals the live buffer. -/
theorem submitSeq_order_and_persistence (payloads : List JVal) (ts : String)
    (h : ∀ v ∈ payloads, truthy v = true ∧ shutdownSentinel v = false) :
    (submitSeq initialState payloads ts).logs = payloads ∧
      (submitSeq initialState payloads ts).disk =
        (submitSeq initialState payloads ts).logs := by
  have := submitSeq_appends payloads initialState ts h rfl
  exact ⟨by simpa [initialState] using this.1,
    by rw [this.1, this.2]⟩

/-- Witness for the amended C1 with two concrete valid payloads. -/
theorem submitSeq_order_and_persistence_witness :
    (∀ v ∈ [JVal.jstr ("a"), JVal.jnum 5],
        truthy v = true ∧ shutdownSentinel v = false) ∧
    (submitSeq initialState [JVal.jstr ("a"), JVal.jnum 5] ("t")).logs =
        [JVal.jstr ("a"), JVal.jnum 5] ∧
    (submitSeq initialState [JVal.jstr ("a"), JVal.jnum 5] ("t")).disk =
        (submitSeq initialState [JVal.jstr ("a"), JVal.jnum 5] ("t")).logs := by
  refine ⟨by decide, ?_⟩
  exact submitSeq_order_and_persistence _ _ (by decide)

/-- C1 counterexample: a single valid submission whose text is the
shutdown sentinel leaves the live buffer empty, not equal to the
one-element submission sequence, because the archival transition clears
the buffer within the same request. -/
theorem submitSeq_order_counterexample :
    truthy (JVal.jstr ("shutdown")) = true ∧
    (submitSeq initialState [JVal.jstr ("shutdown")] ("t")).logs = [] ∧
    ([] : List JVal) ≠ [JVal.jstr ("shutdown")] := by
  refine ⟨by decide, rfl, by simp⟩

/-- C3: a valid string submission containing the shutdown substring
(case-insensitively) triggers the archival transition when the snapshot
and persistence writes succeed: the buffer is cleared, the empty buffer
is persisted, a snapshot named from the timestamp now holds the whole
pre-archival buffer including the triggering record, and the response is
the distinct archival success carrying that identifier. -/
theorem submit_shutdown_archival (st : ServerState) (s ts : String)
    (p1 : Bool) (hs : truthy (JVal.jstr s) = true)
    (hsd : containsShutdown s = true) :
    (submit st (some (JVal.jstr s)) p1 true true ts).state.logs = [] ∧
    (submit st (some (JVal.jstr s)) p1 true true ts).state.disk = [] ∧
    (submit st (some (JVal.jstr s)) p1 true true ts).state.archives =
      st.archives ++ [(archiveFilename ts, st.logs ++ [JVal.jstr s])] ∧
    (submit st (some (JVal.jstr s)) p1 true true ts).response =
      HttpResponse.okArchived
        ("Log received and archived (shutdown detected)")
        (some (archiveFilename ts)) := by
  have hne : (st.logs ++ [JVal.jstr s]).isEmpty = false := by
    cases st.logs <;> rfl
  simp [submit, hs, shutdownSentinel, hsd, archiveLogs, saveLogs, hne]

/-- Witness for C3 with a concrete non-empty buffer and the upper-case
sentinel text of the spec. -/
theorem submit_shutdown_archival_witness :
    truthy (JVal.jstr ("SHUTDOWN now")) = true ∧
    containsShutdown ("SHUTDOWN now") = true ∧
    (submit ⟨[JVal.jstr ("a")], [JVal.jstr ("a")], []⟩
        (some (JVal.jstr ("SHUTDOWN now"))) true true true
        ("2024")).state.logs = [] ∧
    (submit ⟨[JVal.jstr ("a")], [JVal.jstr ("a")], []⟩
        (some (JVal.jstr ("SHUTDOWN now"))) true true true
        ("2024")).state.archives =
      [(archiveFilename ("2024"),
        [JVal.jstr ("a"), JVal.jstr ("SHUTDOWN now")])] := by
  have h := submit_shutdown_archival
    ⟨[JVal.jstr ("a")], [JVal.jstr ("a")], []⟩ ("SHUTDOWN now") ("2024")
    true (by decide) (by decide)
  exact ⟨by decide, by decide, h.1, by simpa using h.2.2.1⟩

/-- C5 counterexample: the envelope the hub publishes on an ordinary
ingestion has type new, which is not one of init, append, archive; the
spec sentence naming the set with append does not match the code. -/
theorem publish_type_counterexample :
    (submit initialState (some (JVal.jstr ("a"))) true true true
        ("t")).emitted.map Envelope.type = [("new")] ∧
    (("new") : String) ≠ ("init") ∧
    (("new") : String) ≠ ("append") ∧
    (("new") : String) ≠ ("archive") := by
  exact ⟨rfl, by decide, by decide, by decide⟩

/-- C5 (amended): every envelope published by the POST /log handler is
of shape type-and-data with type drawn from the set new, archive — new
carrying exactly the record just ingested from the request (the log
field's value) as a one-element array, archive carrying the
archived-and-cleared object for the snapshot the archival produced —
and the envelope sent on connect is init carrying the full buffer. -/
theorem publish_envelope_shapes (st : ServerState) (lf : Option JVal)
    (p1 p2 aOk : Bool) (ts : String) (e : Envelope)
    (he : e ∈ (submit st lf p1 p2 aOk ts).emitted) :
    ((∃ v, lf = some v ∧ truthy v = true ∧
        e = ⟨("new"), JVal.jarr [v]⟩) ∨
      (∃ v, lf = some v ∧ truthy v = true ∧ shutdownSentinel v = true ∧
        e = ⟨("archive"),
          archiveEnvelopeData
            (archiveLogs (st.logs ++ [v]) st.archives aOk ts).1 true⟩)) ∧
    initEnvelope st = ⟨("init"), JVal.jarr st.logs⟩ := by
  refine ⟨?_, rfl⟩
  cases lf with
  | none => simp [submit] at he
  | some v =>
    by_cases hv : truthy v
    · by_cases hsd : shutdownSentinel v
      · simp [submit, hv, hsd] at he
        rcases he with h | h
        · exact Or.inl ⟨v, rfl, hv, h⟩
        · exact Or.inr ⟨v, rfl, hv, hsd, h⟩
      · simp [submit, hv, hsd] at he
        exact Or.inl ⟨v, rfl, hv, he⟩
    · simp [submit, hv] at he

/-- Witness for the amended C5 at a concrete ingestion envelope, which
is forced to carry exactly the submitted record. -/
theorem publish_envelope_shapes_witness :
    ((∃ v, (some (JVal.jstr ("a")) : Option JVal) = some v ∧
        truthy v = true ∧
        (⟨("new"), JVal.jarr [JVal.jstr ("a")]⟩ : Envelope) =
          ⟨("new"), JVal.jarr [v]⟩) ∨
      (∃ v, (some (JVal.jstr ("a")) : Option JVal) = some v ∧
        truthy v = true ∧ shutdownSentinel v = true ∧
        (⟨("new"), JVal.jarr [JVal.jstr ("a")]⟩ : Envelope) =
          ⟨("archive"),
            archiveEnvelopeData
              (archiveLogs (initialState.logs ++ [v])
                initialState.archives true ("t")).1 true⟩)) ∧
    initEnvelope initialState = ⟨("init"), JVal.jarr initialState.logs⟩ := by
  refine publish_envelope_shapes initialState (some (JVal.jstr ("a")))
    true true true ("t") _ ?_
  have h : (submit initialState (some (JVal.jstr ("a"))) true true true
      ("t")).emitted = [⟨("new"), JVal.jarr [JVal.jstr ("a")]⟩] := rfl
  rw [h]
  exact List.mem_singleton.mpr rfl

/-- C8 counterexample: a valid submission whose text fires the sentinel,
taken with a failing persistence write, does not answer with the plain
Log-received success and does not leave the record in the live buffer:
the archival branch still runs and clears the buffer. -/
theorem submit_persist_failure_counterexample :
    truthy (JVal.jstr ("shutdown")) = true ∧
    (submit initialState (some (JVal.jstr ("shutdown"))) false true true
        ("t")).response ≠ HttpResponse.ok ("Log received") ∧
    (submit initialState (some (JVal.jstr ("shutdown"))) false true true
        ("t")).state.logs = [] := by
  exact ⟨by decide, by decide, rfl⟩

/-- C8 (amended): for a valid non-sentinel submission, a failing
persistence write is invisible to the caller: the handler still answers
with the 200 Log-received success, the record stays appended to the live
buffer and is broadcast, and only the persisted document is left stale;
no exception propagates (the handler is a total function). -/
theorem submit_persist_failure_best_effort (st : ServerState) (v : JVal)
    (p2 aOk : Bool) (ts : String) (hv : truthy v = true)
    (hns : shutdownSentinel v = false) :
    (submit st (some v) false p2 aOk ts).response =
      HttpResponse.ok ("Log received") ∧
    httpStatus (submit st (some v) false p2 aOk ts).response = 200 ∧
    (submit st (some v) false p2 aOk ts).state.logs = st.logs ++ [v] ∧
    (submit st (some v) false p2 aOk ts).state.disk = st.disk ∧
    (submit st (some v) false p2 aOk ts).emitted =
      [⟨("new"), JVal.jarr [v]⟩] := by
  simp [submit, hv, hns, saveLogs, httpStatus]

/-- Witness for the amended C8 with a concrete record and state. -/
theorem submit_persist_failure_best_effort_witness :
    truthy (JVal.jstr ("boot")) = true ∧
    shutdownSentinel (JVal.jstr ("boot")) = false ∧
    (submit ⟨[JVal.jnum 1], [JVal.jnum 1], []⟩ (some (JVal.jstr ("boot")))
        false true true ("t")).response =
      HttpResponse.ok ("Log received") ∧
    (submit ⟨[JVal.jnum 1], [JVal.jnum 1], []⟩ (some (JVal.jstr ("boot")))
        false true true ("t")).state.logs =
      [JVal.jnum 1, JVal.jstr ("boot")] ∧
    (submit ⟨[JVal.jnum 1], [JVal.jnum 1], []⟩ (some (JVal.jstr ("boot")))
        false true true ("t")).state.disk = [JVal.jnum 1] := by
  have h := submit_persist_failure_best_effort
    ⟨[JVal.jnum 1], [JVal.jnum 1], []⟩ (JVal.jstr ("boot")) true true ("t")
    (by decide) (by decide)
  exact ⟨by decide, by decide, h.1, by simpa using h.2.2.1, h.2.2.2.1⟩

/-- Helper: the sentinel never fires for a non-string value. -/
theorem shutdownSentinel_of_nonstring (v : JVal)
    (h : isStringVal v = false) : shutdownSentinel v = false := by
  cases v <;> simp_all [isStringVal, shutdownSentinel]

/-- C9: a truthy non-string payload is accepted, appended, persisted and
broadcast, but the shutdown sentinel never fires for it, even when its
rendering would contain the word shutdown, because the typeof check
restricts sentinel detection to strings: the archives are untouched and
the response is the ordinary success. -/
theorem submit_nonstring_no_sentinel (st : ServerState) (v : JVal)
    (p2 aOk : Bool) (ts : String) (hv : truthy v = true)
    (hns : isStringVal v = false) :
    (submit st (some v) true p2 aOk ts).response =
      HttpResponse.ok ("Log received") ∧
    (submit st (some v) true p2 aOk ts).state.logs = st.logs ++ [v] ∧
    (submit st (some v) true p2 aOk ts).state.disk = st.logs ++ [v] ∧
    (submit st (some v) true p2 aOk ts).state.archives = st.archives ∧
    (submit st (some v) true p2 aOk ts).emitted =
      [⟨("new"), JVal.jarr [v]⟩] := by
  have hsd := shutdownSentinel_of_nonstring v hns
  simp [submit, hv, hsd, saveLogs]

/-- Witness for C9: an array whose single element is the string shutdown
is accepted without firing the sentinel. -/
theorem submit_nonstring_no_sentinel_witness :
    truthy (JVal.jarr [JVal.jstr ("shutdown")]) = true ∧
    isStringVal (JVal.jarr [JVal.jstr ("shutdown")]) = false ∧
    (submit initialState (some (JVal.jarr [JVal.jstr ("shutdown")]))
        true true true ("t")).response = HttpResponse.ok ("Log received") ∧
    (submit initialState (some (JVal.jarr [JVal.jstr ("shutdown")]))
        true true true ("t")).state.archives = [] := by
  have h := submit_nonstring_no_sentinel initialState
    (JVal.jarr [JVal.jstr ("shutdown")]) true true ("t") (by decide)
    (by decide)
  exact ⟨by decide, by decide, h.1, by simpa using h.2.2.2.1⟩

/-- C10: when the sentinel fires but the snapshot write fails, the
transition is not atomic with respect to the error: the buffer is still
cleared, the cleared buffer is still persisted, the subscribers still
receive the archive envelope with a null identifier and a cleared flag,
and the response still reports archival with a null identifier, so the
pre-archival records are dropped without any snapshot being kept. -/
theorem submit_shutdown_snapshot_failure (st : ServerState) (s ts : String)
    (p1 : Bool) (hs : truthy (JVal.jstr s) = true)
    (hsd : containsShutdown s = true) :
    (submit st (some (JVal.jstr s)) p1 true false ts).state.logs = [] ∧
    (submit st (some (JVal.jstr s)) p1 true false ts).state.disk = [] ∧
    (submit st (some (JVal.jstr s)) p1 true false ts).state.archives =
      st.archives ∧
    (submit st (some (JVal.jstr s)) p1 true false ts).emitted =
      [⟨("new"), JVal.jarr [JVal.jstr s]⟩,
       ⟨("archive"), archiveEnvelopeData none true⟩] ∧
    (submit st (some (JVal.jstr s)) p1 true false ts).response =
      HttpResponse.okArchived
        ("Log received and archived (shutdown detected)") none := by
  have hne : (st.logs ++ [JVal.jstr s]).isEmpty = false := by
    cases st.logs <;> rfl
  simp [submit, hs, shutdownSentinel, hsd, archiveLogs, saveLogs, hne]

/-- Witness for C10 with a concrete non-empty buffer that is dropped. -/
theorem submit_shutdown_snapshot_failure_witness :
    truthy (JVal.jstr ("shutdown")) = true ∧
    containsShutdown ("shutdown") = true ∧
    (submit ⟨[JVal.jstr ("a")], [JVal.jstr ("a")], []⟩
        (some (JVal.jstr ("shutdown"))) true true false
        ("t")).state.logs = [] ∧
    (submit ⟨[JVal.jstr ("a")], [JVal.jstr ("a")], []⟩
        (some (JVal.jstr ("shutdown"))) true true false
        ("t")).state.archives = [] := by
  have h := submit_shutdown_snapshot_failure
    ⟨[JVal.jstr ("a")], [JVal.jstr ("a")], []⟩ ("shutdown") ("t") true
    (by decide) (by decide)
  exact ⟨by decide, by decide, h.1, by simpa using h.2.2.1⟩

/-- Lexicographic strict order on character lists, comparing code
points, as the JavaScript string less-than used by Array.prototype.sort
with the default comparator. -/
def lexLt : List Char → List Char → Bool
  | _, [] => false
  | [], _ :: _ => true
  | a :: as, b :: bs =>
    if a.toNat < b.toNat then true
    else if b.toNat < a.toNat then false
    else lexLt as bs

/-- Strict string order of the JavaScript sort comparator. -/
def strLt (s t : String) : Bool := lexLt s.data t.data

/-- Non-strict string order: not strictly greater. -/
def strLe (s t : String) : Bool := !(strLt t s)

/-- Unfolding equation for lexLt on two non-empty lists. -/
theorem lexLt_cons (a b : Char) (as bs : List Char) :
    lexLt (a :: as) (b :: bs) =
      if a.toNat < b.toNat then true
      else if b.toNat < a.toNat then false
      else lexLt as bs := rfl

/-- The strict order is asymmetric. -/
theorem lexLt_asymm (a b : List Char) (h : lexLt a b = true) :
    lexLt b a = false := by
  induction a generalizing b with
  | nil =>
    cases b with
    | nil => simp [lexLt] at h
    | cons y ys => rfl
  | cons x xs ih =>
    cases b with
    | nil => simp [lexLt] at h
    | cons y ys =>
      rw [lexLt_cons] at h ⊢
      by_cases h1 : x.toNat < y.toNat
      · have h2 : ¬ y.toNat < x.toNat := by omega
        simp [h1, h2]
      · by_cases h2 : y.toNat < x.toNat
        · simp [h1, h2] at h
        · simp only [h1, h2, if_false] at h ⊢
          exact ih ys h

/-- Totality of the non-strict order. -/
theorem strLe_total (x y : String) (h : strLe x y = false) :
    strLe y x = true := by
  simp only [strLe, strLt, Bool.not_eq_false'] at h
  simp only [strLe, strLt, lexLt_asymm _ _ h, Bool.not_false]

/-- Insertion step of the embedded sort. -/
def insertStr (x : String) : List String → List String
  | [] => [x]
  | y :: ys => if strLe x y then x :: y :: ys else y :: insertStr x ys

/-- Insertion sort with the JavaScript comparator, modelling the
Array.prototype.sort call of the archive-listing route. -/
def sortStrs : List String → List String
  | [] => []
  | x :: xs => insertStr x (sortStrs xs)

/-- Inserting permutes to consing. -/
theorem insertStr_perm (x : String) (l : List String) :
    (insertStr x l).Perm (x :: l) := by
  induction l with
  | nil => exact List.Perm.refl _
  | cons y ys ih =>
    by_cases h : strLe x y
    · simp [insertStr, h]
    · simp only [insertStr, h, if_false]
      exact (ih.cons y).trans (List.Perm.swap x y ys)

/-- The embedded sort returns a permutation of its input. -/
theorem sortStrs_perm (l : List String) : (sortStrs l).Perm l := by
  induction l with
  | nil => exact List.Perm.refl _
  | cons x xs ih =>
    exact (insertStr_perm x (sortStrs xs)).trans (ih.cons x)

/-- Inserting preserves ascending adjacency. -/
theorem insertStr_chain (x : String) (l : List String)
    (h : List.Chain' (fun a b => strLe a b = true) l) :
    List.Chain' (fun a b => strLe a b = true) (insertStr x l) := by
  induction l with
  | nil => exact List.chain'_singleton x
  | cons y ys ih =>
    by_cases hxy : strLe x y = true
    · simp only [insertStr, hxy, if_true]
      exact List.chain'_cons.mpr ⟨hxy, h⟩
    · simp only [insertStr, hxy, if_false]
      have hyx : strLe y x = true :=
        strLe_total x y (Bool.eq_false_iff.mpr hxy)
      cases ys with
      | nil => exact List.chain'_cons.mpr ⟨hyx, List.chain'_singleton x⟩
      | cons z zs =>
        have hh := List.chain'_cons.mp h
        have ihz := ih hh.2
        by_cases hxz : strLe x z = true
        · simp only [insertStr, hxz, if_true] at ihz ⊢
          exact List.chain'_cons.mpr ⟨hyx, ihz⟩
        · simp only [insertStr, hxz, if_false] at ihz ⊢
          exact List.chain'_cons.mpr ⟨hh.1, ihz⟩

/-- The embedded sort is ascending under the comparator. -/
theorem sortStrs_chain (l : List String) :
    List.Chain' (fun a b => strLe a b = true) (sortStrs l) := by
  induction l with
  | nil => exact List.chain'_nil
  | cons x xs ih => exact insertStr_chain x (sortStrs xs) ih

/-- JavaScript String.prototype.endsWith, used by the listing filter. -/
def strEndsWith (s suffix : String) : Bool :=
  pfx suffix.data.reverse s.data.reverse

/-- Embedding of the GET /logs/archives route body: read the archive
directory entries, keep the json files, sort them with the default
string sort, and reverse so the newest, largest name comes first. -/
def listArchives (names : List String) : List String :=
  (sortStrs (names.filter (fun f => strEndsWith f (".json")))).reverse

/-- Digit test for the timestamp shape. -/
def isDigitCh (c : Char) : Bool :=
  decide (48 ≤ c.toNat) && decide (c.toNat ≤ 57)

/-- Template match: the character d stands for any decimal digit, every
other template character stands for itself. -/
def matchesTemplate : List Char → List Char → Bool
  | [], [] => true
  | t :: ts, c :: cs =>
    (if t = 'd' then isDigitCh c else decide (c = t)) &&
      matchesTemplate ts cs
  | _, _ => false

/-- Shape of new Date().toISOString(): four year digits, then
dash-separated date fields, the T separator, colon-separated time
fields, the millisecond period field and the trailing Z. -/
def isoTemplate : List Char := ("dddd-dd-ddTdd:dd:dd.dddZ").data

/-- A string has the ISO timestamp shape when it matches the template
character by character. -/
def isoShape (s : String) : Bool := matchesTemplate isoTemplate s.data

/-- Matching the template fixes the length. -/
theorem matchesTemplate_length (tpl xs : List Char)
    (h : matchesTemplate tpl xs = true) : xs.length = tpl.length := by
  induction tpl generalizing xs with
  | nil => cases xs with
    | nil => rfl
    | cons c cs => simp [matchesTemplate] at h
  | cons t ts ih =>
    cases xs with
    | nil => simp [matchesTemplate] at h
    | cons c cs =>
      simp only [matchesTemplate, Bool.and_eq_true] at h
      simp [ih cs h.2]

/-- The sanitizer does not move a digit. -/
theorem sanChar_digit (c : Char) (h : isDigitCh c = true) :
    sanChar c = c := by
  rw [sanChar, if_neg]
  rintro (rfl | rfl) <;> exact absurd h (by decide)

/-- Sanitizing two strings of the ISO shape preserves their
lexicographic comparison: at every position either both characters are
digits, which the sanitizer keeps, or both are the same template
character, which it maps identically. -/
theorem lexLt_map_sanChar (tpl xs ys : List Char)
    (hx : matchesTemplate tpl xs = true)
    (hy : matchesTemplate tpl ys = true) :
    lexLt (xs.map sanChar) (ys.map sanChar) = lexLt xs ys := by
  induction tpl generalizing xs ys with
  | nil =>
    cases xs with
    | nil => cases ys with
      | nil => rfl
      | cons y ys' => simp [matchesTemplate] at hy
    | cons x xs' => simp [matchesTemplate] at hx
  | cons t ts ih =>
    cases xs with
    | nil => simp [matchesTemplate] at hx
    | cons x xs' =>
      cases ys with
      | nil => simp [matchesTemplate] at hy
      | cons y ys' =>
        simp only [matchesTemplate, Bool.and_eq_true] at hx hy
        by_cases ht : t = 'd'
        · simp only [ht, if_true] at hx hy
          simp only [List.map_cons, lexLt_cons,
            sanChar_digit x hx.1, sanChar_digit y hy.1,
            ih xs' ys' hx.2 hy.2]
        · simp only [ht, if_false, decide_eq_true_eq] at hx hy
          obtain ⟨hx1, hx2⟩ := hx
          obtain ⟨hy1, hy2⟩ := hy
          subst hx1
          subst hy1
          simp only [List.map_cons, lexLt_cons, Nat.lt_irrefl, if_false,
            ih xs' ys' hx2 hy2]

/-- Dropping a shared left context keeps the comparison. -/
theorem lexLt_append_same_left (p a b : List Char) :
    lexLt (p ++ a) (p ++ b) = lexLt a b := by
  induction p with
  | nil => rfl
  | cons c cs ih => simp [lexLt_cons, Nat.lt_irrefl, ih]

/-- A strict comparison between equal-length lists survives appending
arbitrary suffixes, because the lists already differ before either
suffix starts. -/
theorem lexLt_append_of_lt (a : List Char) :
    ∀ b u v, a.length = b.length → lexLt a b = true →
      lexLt (a ++ u) (b ++ v) = true := by
  induction a with
  | nil =>
    intro b u v hlen h
    cases b with
    | nil => simp [lexLt] at h
    | cons y ys => simp at hlen
  | cons x xs ih =>
    intro b u v hlen h
    cases b with
    | nil => simp at hlen
    | cons y ys =>
      rw [lexLt_cons] at h
      simp only [List.cons_append, lexLt_cons]
      by_cases h1 : x.toNat < y.toNat
      · simp [h1]
      · by_cases h2 : y.toNat < x.toNat
        · simp [h1, h2] at h
        · simp only [h1, h2, if_false] at h ⊢
          exact ih ys u v (by simpa using hlen) h

/-- Data of the archive filename, split at its three pieces. -/
theorem archiveFilename_data (ts : String) :
    (archiveFilename ts).data =
      ("logs-").data ++ (ts.data.map sanChar ++ (".json").data) := by
  have h : (archiveFilename ts).data =
      (("logs-").data ++ ts.data.map sanChar) ++ (".json").data := rfl
  rw [h, List.append_assoc]

/-- C6: the archive listing is newest first. A chronologically later
ISO timestamp is lexicographically larger, the sanitizer and the fixed
filename context preserve that strict order, and the listing route
returns exactly the json names sorted ascending and reversed, hence in
descending, newest-first order. -/
theorem listArchives_newest_first (ts1 ts2 : String) (names : List String)
    (h1 : isoShape ts1 = true) (h2 : isoShape ts2 = true)
    (hlt : strLt ts1 ts2 = true) :
    strLt (archiveFilename ts1) (archiveFilename ts2) = true ∧
    List.Chain' (fun a b => strLe b a = true) (listArchives names) ∧
    (listArchives names).Perm
      (names.filter (fun f => strEndsWith f (".json"))) := by
  refine ⟨?_, ?_, ?_⟩
  · rw [strLt, archiveFilename_data, archiveFilename_data,
      lexLt_append_same_left]
    refine lexLt_append_of_lt _ _ _ _ ?_ ?_
    · have l1 := matchesTemplate_length isoTemplate ts1.data h1
      have l2 := matchesTemplate_length isoTemplate ts2.data h2
      simp [l1, l2]
    · rw [lexLt_map_sanChar isoTemplate ts1.data ts2.data h1 h2]
      exact hlt
  · rw [listArchives, List.chain'_reverse]
    exact sortStrs_chain _
  · exact (List.reverse_perm _).trans (sortStrs_perm _)

/-- Witness for C6 at two concrete ISO timestamps one second apart. -/
theorem listArchives_newest_first_witness :
    isoShape ("2024-01-02T03:04:05.678Z") = true ∧
    isoShape ("2024-01-02T03:04:06.000Z") = true ∧
    strLt ("2024-01-02T03:04:05.678Z") ("2024-01-02T03:04:06.000Z") =
      true ∧
    strLt (archiveFilename ("2024-01-02T03:04:05.678Z"))
      (archiveFilename ("2024-01-02T03:04:06.000Z")) = true := by
  refine ⟨by decide, by decide, by decide, ?_⟩
  exact (listArchives_newest_first _ _ [("logs-a.json")] (by decide)
    (by decide) (by decide)).1

/-!
Path model for the archive delete and download routes. POSIX path
semantics: a path string splits at the slash separator into components;
an absolute, normalized path is the list of its components. The archive
directory ARCHIVE_DIR is an absolute normalized path dir; the on-disk
state is the list of absolute paths of existing files, plus the archive
directory itself, which ensureArchiveDir guarantees to exist.
-/

/-- A path component or raw path text. -/
abbrev Comp := List Char

/-- An absolute normalized path as its list of components. -/
abbrev FsPath := List Comp

/-- Split raw path text at every slash, keeping empty pieces, as the
separator positions of the text dictate. -/
def splitComps : List Char → FsPath
  | [] => [[]]
  | c :: rest =>
    if c = '/' then [] :: splitComps rest
    else
      match splitComps rest with
      | [] => [[c]]
      | p :: ps => (c :: p) :: ps

/-- Embedding of path.posix.basename: the last non-empty piece of the
slash-split text; text without any non-empty piece, i.e. the empty text
or slashes only, gives the empty name (Node returns the empty string
for both). -/
def basenameL (l : List Char) : Comp :=
  match ((splitComps l).reverse).filter (fun p => decide (p ≠ [])) with
  | [] => []
  | c :: _ => c

/-- One normalization step of path resolution: empty and dot components
vanish, a dot-dot component pops the last component (a no-op at the
root), anything else is appended. -/
def normStep (acc : FsPath) (c : Comp) : FsPath :=
  if c = [] ∨ c = ['.'] then acc
  else if c = ['.', '.'] then acc.dropLast
  else acc ++ [c]

/-- Normalize a component sequence left to right from the root. -/
def normComps (cs : FsPath) : FsPath := cs.foldl normStep []

/-- Embedding of path.resolve(dir, s) for an absolute normalized dir:
an absolute s is normalized on its own, otherwise s is resolved
underneath dir. -/
def resolveAbs (dir : FsPath) (s : Comp) : FsPath :=
  if pfx ['/'] s then normComps (splitComps s)
  else normComps (dir ++ splitComps s)

/-- Join components with slash separators. -/
def joinComps : FsPath → List Char
  | [] => []
  | [c] => c
  | c :: rest => c ++ '/' :: joinComps rest

/-- Render an absolute path as text, with its leading slash. -/
def renderAbs (p : FsPath) : List Char := '/' :: joinComps p

/-- Embedding of path.posix.relative for two absolute normalized paths:
drop the common prefix, go up once per remaining source component, then
down the remaining target components. -/
def relComps : FsPath → FsPath → FsPath
  | [], t => t
  | f :: fs, [] => (f :: fs).map (fun _ => ['.', '.'])
  | f :: fs, t :: ts =>
    if f = t then relComps fs ts
    else (f :: fs).map (fun _ => ['.', '.']) ++ t :: ts

/-- Existence on disk: a path exists when it is a tracked file or the
archive directory itself. -/
def existsFs (dir : FsPath) (files : List FsPath) (p : FsPath) : Bool :=
  decide (p ∈ files) || decide (p = dir)

/-- The path p is the archive directory or below it. -/
def insideDir (dir p : FsPath) : Bool := pfx dir p

/-- A well-formed archive-directory component: non-empty, not a dot
navigation component, and free of separators. -/
def goodComp (c : Comp) : Bool :=
  decide (c ≠ []) && decide (c ≠ ['.']) && decide (c ≠ ['.', '.']) &&
    decide (¬ '/' ∈ c)

/-- A well-formed absolute normalized archive directory. -/
def goodDir (dir : FsPath) : Bool := dir.all goodComp

/-- Result of the DELETE /logs/archives/:name route. -/
inductive DeleteResponse : Type where
  | invalid : DeleteResponse
  | missing : DeleteResponse
  | deleted : Comp → DeleteResponse
deriving DecidableEq

/-- HTTP status of each delete result. -/
def deleteStatus : DeleteResponse → Nat
  | DeleteResponse.invalid => 400
  | DeleteResponse.missing => 404
  | DeleteResponse.deleted _ => 200

/-- Result of the GET /logs/download/:name route. -/
inductive DownloadResponse : Type where
  | invalid : DownloadResponse
  | missing : DownloadResponse
  | streamed : FsPath → DownloadResponse
deriving DecidableEq

/-- HTTP status of each download result. -/
def downloadStatus : DownloadResponse → Nat
  | DownloadResponse.invalid => 400
  | DownloadResponse.missing => 404
  | DownloadResponse.streamed _ => 200

/-- Body of the delete route after the basename sanitization: resolve
the safe name under the archive directory, reject with 400 unless the
rendered path starts with the rendered directory plus separator, 404
when the target does not exist, otherwise unlink it. -/
def deleteArchiveSafe (dir : FsPath) (files : List FsPath)
    (safeName : Comp) : DeleteResponse × List FsPath :=
  let full := resolveAbs dir safeName
  if pfx (renderAbs dir ++ ['/']) (renderAbs full) = false then
    (DeleteResponse.invalid, files)
  else if existsFs dir files full = false then
    (DeleteResponse.missing, files)
  else
    (DeleteResponse.deleted safeName,
     files.filter (fun p => decide (p ≠ full)))

/-- Embedding of the DELETE /logs/archives/:name handler: the request
parameter is first reduced to its basename, then checked and deleted. -/
def deleteArchive (dir : FsPath) (files : List FsPath) (name : Comp) :
    DeleteResponse × List FsPath :=
  deleteArchiveSafe dir files (basenameL name)

/-- Body of the download route after the basename sanitization: resolve
the safe name, reject with 400 when the relative path from the archive
directory climbs out or is absolute, 404 when the target does not
exist, otherwise stream it. -/
def downloadArchiveSafe (dir : FsPath) (files : List FsPath)
    (safeName : Comp) : DownloadResponse :=
  let full := resolveAbs dir safeName
  let rel := joinComps (relComps dir full)
  if pfx ['.', '.'] rel || pfx ['/'] rel then DownloadResponse.invalid
  else if existsFs dir files full = false then DownloadResponse.missing
  else DownloadResponse.streamed full

/-- Embedding of the GET /logs/download/:name handler. -/
def downloadArchive (dir : FsPath) (files : List FsPath) (name : Comp) :
    DownloadResponse :=
  downloadArchiveSafe dir files (basenameL name)

/-- A prefix is never longer than the whole. -/
theorem pfx_le_length {α : Type} [DecidableEq α] (p s : List α)
    (h : pfx p s = true) : p.length ≤ s.length := by
  induction p generalizing s with
  | nil => simp
  | cons a as ih =>
    cases s with
    | nil => simp [pfx] at h
    | cons b bs =>
      simp only [pfx] at h
      by_cases hab : a = b
      · simp only [hab, if_true] at h
        simpa using ih bs h
      · simp [hab] at h

/-- Every list is a prefix of itself followed by anything. -/
theorem pfx_self_append {α : Type} [DecidableEq α] (p q : List α) :
    pfx p (p ++ q) = true := by
  induction p with
  | nil => rfl
  | cons a as ih => simp [pfx, ih]

/-- Reflexivity of the prefix test. -/
theorem pfx_refl {α : Type} [DecidableEq α] (p : List α) :
    pfx p p = true := by
  have h := pfx_self_append p ([] : List α)
  simpa using h

/-- A list extended by one element is not a prefix of the list. -/
theorem pfx_append_single (x : List α) (c : α) [DecidableEq α] :
    pfx (x ++ [c]) x = false := by
  cases hx : pfx (x ++ [c]) x with
  | false => rfl
  | true => exact absurd (pfx_le_length _ _ hx) (by simp)

/-- Pieces of the slash split never contain the separator. -/
theorem splitComps_no_slash (l : List Char) :
    ∀ p ∈ splitComps l, ¬ '/' ∈ p := by
  induction l with
  | nil =>
    intro p hp
    simp only [splitComps, List.mem_singleton] at hp
    simp [hp]
  | cons c rest ih =>
    intro p hp
    by_cases hc : c = '/'
    · simp only [splitComps, hc, if_true, List.mem_cons] at hp
      rcases hp with rfl | hp
      · simp
      · exact ih p hp
    · simp only [splitComps, hc, if_false] at hp
      cases hsr : splitComps rest with
      | nil =>
        simp only [hsr, List.mem_singleton] at hp
        subst hp
        simp only [List.mem_singleton]
        exact fun hcc => hc (Eq.symm hcc)
      | cons q qs =>
        rw [hsr] at hp
        rcases List.mem_cons.mp hp with rfl | hp2
        · intro hmem
          rcases List.mem_cons.mp hmem with h | h
          · exact hc h.symm
          · exact ih q (hsr ▸ List.mem_cons_self q qs) h
        · exact ih p (hsr ▸ List.mem_cons_of_mem q hp2)

/-- A slash-free text splits into itself alone. -/
theorem splitComps_of_no_slash (l : List Char) (h : ¬ '/' ∈ l) :
    splitComps l = [l] := by
  induction l with
  | nil => rfl
  | cons c rest ih =>
    have hc : ¬ c = '/' := fun hc => h (hc ▸ List.mem_cons_self c rest)
    have hrest : ¬ '/' ∈ rest := fun hr => h (List.mem_cons_of_mem c hr)
    simp [splitComps, hc, ih hrest]

/-- The basename is always a separator-free component. -/
theorem basenameL_no_slash (l : List Char) : ¬ '/' ∈ basenameL l := by
  rw [basenameL]
  cases hf : ((splitComps l).reverse).filter (fun p => decide (p ≠ [])) with
  | nil => simp
  | cons c cs =>
    have hc : c ∈ ((splitComps l).reverse).filter
        (fun p => decide (p ≠ [])) := hf ▸ List.mem_cons_self c cs
    have hc2 : c ∈ (splitComps l).reverse := List.mem_of_mem_filter hc
    exact splitComps_no_slash l c (List.mem_reverse.mp hc2)

/-- Folding normalization over well-formed components just appends. -/
theorem foldl_normStep_good (dir : FsPath) :
    ∀ acc, goodDir dir = true →
      List.foldl normStep acc dir = acc ++ dir := by
  induction dir with
  | nil => intro acc _; simp
  | cons c rest ih =>
    intro acc hg
    simp only [goodDir, List.all_cons, Bool.and_eq_true] at hg
    have hc := hg.1
    simp only [goodComp, Bool.and_eq_true, decide_eq_true_eq] at hc
    have hstep : normStep acc c = acc ++ [c] := by
      simp [normStep, hc.1.1.1, hc.1.1.2, hc.1.2]
    simp only [List.foldl_cons, hstep]
    rw [ih (acc ++ [c]) hg.2]
    simp

/-- A slash-free text never starts with the separator. -/
theorem pfx_slash_of_no_slash (l : List Char) (h : ¬ '/' ∈ l) :
    pfx ['/'] l = false := by
  cases l with
  | nil => rfl
  | cons c t =>
    have hc : ¬ c = '/' := fun hc => h (hc ▸ List.mem_cons_self c t)
    have hc2 : ¬ ('/' : Char) = c := fun hcc => hc (Eq.symm hcc)
    simp [pfx, hc2]

/-- Resolving a separator-free name under a well-formed directory is a
single normalization step on it. -/
theorem resolveAbs_no_slash (dir : FsPath) (bn : Comp)
    (hg : goodDir dir = true) (h : ¬ '/' ∈ bn) :
    resolveAbs dir bn = normStep dir bn := by
  rw [resolveAbs, if_neg (by simp [pfx_slash_of_no_slash bn h]),
    splitComps_of_no_slash bn h, normComps, List.foldl_append,
    foldl_normStep_good dir [] hg]
  simp

/-- Appending one component to a non-empty path renders as the rendered
path, a separator, and the component. -/
theorem joinComps_append_single (p : FsPath) (c : Comp) (h : p ≠ []) :
    joinComps (p ++ [c]) = joinComps p ++ '/' :: c := by
  induction p with
  | nil => exact absurd rfl h
  | cons x rest ih =>
    cases rest with
    | nil => rfl
    | cons y ys =>
      have ih2 := ih (by simp)
      simp only [List.cons_append]
      show x ++ '/' :: joinComps ((y :: ys) ++ [c]) =
        (x ++ '/' :: joinComps (y :: ys)) ++ '/' :: c
      rw [ih2]
      simp

/-- A direct child of the directory passes the startsWith guard. -/
theorem del_check_regular (dir : FsPath) (bn : Comp) (hne : dir ≠ []) :
    pfx (renderAbs dir ++ ['/']) (renderAbs (dir ++ [bn])) = true := by
  have h : renderAbs (dir ++ [bn]) = (renderAbs dir ++ ['/']) ++ bn := by
    rw [renderAbs, joinComps_append_single dir bn hne, renderAbs]
    simp
  rw [h]
  exact pfx_self_append _ _

/-- The parent of the directory fails the startsWith guard by length:
the rendered parent is strictly shorter than the directory prefix with
its separator. -/
theorem del_check_dropLast (dir : FsPath) (hne : dir ≠ []) :
    pfx (renderAbs dir ++ ['/']) (renderAbs dir.dropLast) = false := by
  rcases List.eq_nil_or_concat dir with rfl | ⟨ds, d, rfl⟩
  · exact absurd rfl hne
  · simp only [List.concat_eq_append]
    rw [List.dropLast_concat]
    cases hx : pfx (renderAbs (ds ++ [d]) ++ ['/']) (renderAbs ds) with
    | false => rfl
    | true =>
      have hlen := pfx_le_length _ _ hx
      cases ds with
      | nil => simp [renderAbs, joinComps] at hlen
      | cons e es =>
        rw [renderAbs, renderAbs,
          joinComps_append_single (e :: es) d (by simp)] at hlen
        simp at hlen

/-- Relative path from a path to an extension of itself. -/
theorem relComps_self_append (p q : FsPath) : relComps p (p ++ q) = q := by
  induction p with
  | nil => rfl
  | cons f fs ih => simpa [relComps] using ih

/-- Relative path from an extended path back to its base climbs once. -/
theorem relComps_concat (p : FsPath) (d : Comp) :
    relComps (p ++ [d]) p = [['.', '.']] := by
  induction p with
  | nil => rfl
  | cons f fs ih => simpa [relComps] using ih

/-- Delete: a safe name resolving to the directory itself is rejected
by the startsWith guard. -/
theorem deleteArchiveSafe_dir (dir : FsPath) (files : List FsPath)
    (s : Comp) (h : resolveAbs dir s = dir) :
    deleteArchiveSafe dir files s = (DeleteResponse.invalid, files) := by
  simp [deleteArchiveSafe, h, pfx_append_single]

/-- Delete: a safe name resolving to the parent directory is rejected. -/
theorem deleteArchiveSafe_dropLast (dir : FsPath) (files : List FsPath)
    (s : Comp) (hne : dir ≠ []) (h : resolveAbs dir s = dir.dropLast) :
    deleteArchiveSafe dir files s = (DeleteResponse.invalid, files) := by
  simp [deleteArchiveSafe, h, del_check_dropLast dir hne]

/-- Delete: a safe name resolving to a direct child only ever removes
that child. -/
theorem deleteArchiveSafe_append (dir : FsPath) (files : List FsPath)
    (s bn : Comp) (hne : dir ≠ [])
    (h : resolveAbs dir s = dir ++ [bn]) :
    ∀ p ∈ files, p ∉ (deleteArchiveSafe dir files s).2 →
      p = dir ++ [bn] := by
  intro p hp hnp
  simp only [deleteArchiveSafe, h, del_check_regular dir bn hne] at hnp
  by_cases he : existsFs dir files (dir ++ [bn]) = false
  · simp [he] at hnp
    exact absurd hp hnp
  · simp [he, List.mem_filter, hp] at hnp
    exact hnp

/-- Download: a safe name resolving to the directory itself slips past
the relative-path guard and streams the directory path. -/
theorem downloadArchiveSafe_dir (dir : FsPath) (files : List FsPath)
    (s : Comp) (h : resolveAbs dir s = dir) :
    downloadArchiveSafe dir files s = DownloadResponse.streamed dir := by
  have hrel : relComps dir dir = [] := by
    simpa using relComps_self_append dir []
  have hex : existsFs dir files dir = true := by
    simp [existsFs]
  simp [downloadArchiveSafe, h, hrel, joinComps, pfx, hex]

/-- Download: a safe name resolving to the parent is rejected because
the relative path starts with the climb component. -/
theorem downloadArchiveSafe_dropLast (dir : FsPath) (files : List FsPath)
    (s : Comp) (hne : dir ≠ []) (h : resolveAbs dir s = dir.dropLast) :
    downloadArchiveSafe dir files s = DownloadResponse.invalid := by
  rcases List.eq_nil_or_concat dir with rfl | ⟨ds, d, rfl⟩
  · exact absurd rfl hne
  · simp only [List.concat_eq_append] at h ⊢
    rw [List.dropLast_concat] at h
    have hrel : relComps (ds ++ [d]) ds = [['.', '.']] :=
      relComps_concat ds d
    simp [downloadArchiveSafe, h, hrel, joinComps, pfx_refl]

/-- Download: a safe name resolving to a direct child only ever streams
that child. -/
theorem downloadArchiveSafe_append (dir : FsPath) (files : List FsPath)
    (s bn : Comp) (h : resolveAbs dir s = dir ++ [bn]) :
    ∀ full, downloadArchiveSafe dir files s =
        DownloadResponse.streamed full → full = dir ++ [bn] := by
  intro full hfull
  simp only [downloadArchiveSafe, h, relComps_self_append] at hfull
  by_cases h1 : (pfx ['.', '.'] (joinComps [bn]) ||
      pfx ['/'] (joinComps [bn])) = true
  · rw [if_pos h1] at hfull
    exact absurd hfull (by simp)
  · rw [if_neg h1] at hfull
    by_cases he : existsFs dir files (dir ++ [bn]) = false
    · rw [if_pos he] at hfull
      exact absurd hfull (by simp)
    · rw [if_neg he] at hfull
      injection hfull with h2
      exact h2.symm

/-- C7 (amended): both archive file operations first reduce the request
identifier to its basename. When even that sanitized name resolves
outside the archive directory (the dot-dot name), both operations
reject with 400. In every case the delete operation removes at most a
direct child of the archive directory and the download operation
streams at most the archive directory or a direct child of it, so no
file outside the archive area is ever touched — but a traversal-style
identifier whose basename is a plain filename is answered for that
inside file (404 when absent), not rejected with 400. -/
theorem archive_ops_path_safety (dir : FsPath) (files : List FsPath)
    (name : Comp) (hg : goodDir dir = true) (hne : dir ≠ []) :
    (insideDir dir (resolveAbs dir (basenameL name)) = false →
      deleteStatus (deleteArchive dir files name).1 = 400 ∧
      downloadStatus (downloadArchive dir files name) = 400) ∧
    (∀ p ∈ files, p ∉ (deleteArchive dir files name).2 →
      insideDir dir p = true) ∧
    (∀ full, downloadArchive dir files name =
        DownloadResponse.streamed full → insideDir dir full = true) := by
  have hb := basenameL_no_slash name
  have hfull := resolveAbs_no_slash dir (basenameL name) hg hb
  by_cases h1 : basenameL name = [] ∨ basenameL name = ['.']
  · have hfd : resolveAbs dir (basenameL name) = dir := by
      rw [hfull, normStep, if_pos h1]
    have hdel : deleteArchive dir files name =
        (DeleteResponse.invalid, files) :=
      deleteArchiveSafe_dir dir files _ hfd
    have hdl : downloadArchive dir files name =
        DownloadResponse.streamed dir :=
      downloadArchiveSafe_dir dir files _ hfd
    refine ⟨?_, ?_, ?_⟩
    · intro hout
      rw [hfd] at hout
      have : insideDir dir dir = true := pfx_refl dir
      rw [this] at hout
      exact absurd hout (by simp)
    · intro p hp hnp
      rw [hdel] at hnp
      exact absurd hp hnp
    · intro full hf
      rw [hdl] at hf
      injection hf with h2
      rw [← h2]
      exact pfx_refl dir
  · by_cases h2 : basenameL name = ['.', '.']
    · have hfd : resolveAbs dir (basenameL name) = dir.dropLast := by
        rw [hfull, normStep, if_neg h1, if_pos h2]
      have hdel : deleteArchive dir files name =
          (DeleteResponse.invalid, files) :=
        deleteArchiveSafe_dropLast dir files _ hne hfd
      have hdl : downloadArchive dir files name =
          DownloadResponse.invalid :=
        downloadArchiveSafe_dropLast dir files _ hne hfd
      refine ⟨fun _ => ⟨by rw [hdel]; rfl, by rw [hdl]; rfl⟩, ?_, ?_⟩
      · intro p hp hnp
        rw [hdel] at hnp
        exact absurd hp hnp
      · intro full hf
        rw [hdl] at hf
        exact absurd hf (by simp)
    · have hfd : resolveAbs dir (basenameL name) =
          dir ++ [basenameL name] := by
        rw [hfull, normStep, if_neg h1, if_neg h2]
      refine ⟨?_, ?_, ?_⟩
      · intro hout
        rw [hfd] at hout
        have : insideDir dir (dir ++ [basenameL name]) = true :=
          pfx_self_append dir [basenameL name]
        rw [this] at hout
        exact absurd hout (by simp)
      · intro p hp hnp
        have hp2 := deleteArchiveSafe_append dir files (basenameL name)
          (basenameL name) hne hfd p hp hnp
        rw [hp2]
        exact pfx_self_append dir [basenameL name]
      · intro full hf
        have hf2 := downloadArchiveSafe_append dir files (basenameL name)
          (basenameL name) hfd full hf
        rw [hf2]
        exact pfx_self_append dir [basenameL name]

/-- Witness for the amended C7: a concrete archive directory and the
plain dot-dot identifier, whose sanitized form resolves outside and is
rejected with 400 by both operations. -/
theorem archive_ops_path_safety_witness :
    goodDir [("srv").data, ("archives").data] = true ∧
    ([("srv").data, ("archives").data] : FsPath) ≠ [] ∧
    (insideDir [("srv").data, ("archives").data]
        (resolveAbs [("srv").data, ("archives").data]
          (basenameL (("..").data))) = false →
      deleteStatus (deleteArchive [("srv").data, ("archives").data] []
        (("..").data)).1 = 400 ∧
      downloadStatus (downloadArchive [("srv").data, ("archives").data] []
        (("..").data)) = 400) := by
  refine ⟨by decide, by decide, ?_⟩
  exact (archive_ops_path_safety [("srv").data, ("archives").data] []
    (("..").data) (by decide) (by decide)).1

/-- C7 counterexample: the traversal identifier of the spec resolves
outside the archive directory after path normalization, yet both
operations answer 404 (file not found), not the 400 the claim
requires, because the code first reduces the identifier to its
basename passwd, which names a file inside the archive area. -/
theorem archive_traversal_counterexample :
    goodDir [("srv").data, ("archives").data] = true ∧
    insideDir [("srv").data, ("archives").data]
      (resolveAbs [("srv").data, ("archives").data]
        (("../../etc/passwd").data)) = false ∧
    deleteStatus (deleteArchive [("srv").data, ("archives").data] []
      (("../../etc/passwd").data)).1 = 404 ∧
    downloadStatus (downloadArchive [("srv").data, ("archives").data] []
      (("../../etc/passwd").data)) = 404 ∧
    (404 : Nat) ≠ 400 := by
  exact ⟨by decide, by decide, by decide, by decide, by decide⟩

end LogSrv
